import Mathlib

/-!
Shallow embedding of the ATS_AGENT matching/scoring core.

Numeric model: the Python implementation computes with IEEE floats and
`round(x, n)` (round-half-to-even on the scaled value).  We embed all
numbers as exact rationals (`ℚ`) and model `round` as exact
round-half-to-even at the given number of decimal digits.  External
machine-learning backends (scikit-learn TF-IDF vectorization and cosine
similarity, spaCy keyword extraction, sentence-transformer embeddings)
are modelled as explicit function parameters; everything else is
translated directly from the repository sources.

Strings are modelled with Lean `String`/`List Char`; Python's `str.lower`,
`re` character classes and `str.split` are modelled over the ASCII range
(the repository's skill database and all tested texts are ASCII).
-/

namespace ATS

/-- Round-half-to-even on rationals (the rounding mode of Python's
built-in `round`), producing an integer. -/
def rndHE (x : ℚ) : ℤ :=
  let f : ℤ := ⌊x⌋
  let r : ℚ := x - f
  if r < 1/2 then f
  else if r > 1/2 then f + 1
  else if f % 2 = 0 then f else f + 1

/-- Model of Python's `round(x, n)`: round-half-to-even at `n` decimal
digits. -/
def roundTo (n : ℕ) (x : ℚ) : ℚ := (rndHE (x * 10 ^ n) : ℚ) / 10 ^ n

theorem floor_le_rndHE (x : ℚ) : ⌊x⌋ ≤ rndHE x := by
  unfold rndHE
  dsimp only
  split_ifs <;> omega

theorem rndHE_le_floor_add_one (x : ℚ) : rndHE x ≤ ⌊x⌋ + 1 := by
  unfold rndHE
  dsimp only
  split_ifs <;> omega

theorem rndHE_mono {x y : ℚ} (h : x ≤ y) : rndHE x ≤ rndHE y := by
  have hf : ⌊x⌋ ≤ ⌊y⌋ := Int.floor_mono h
  rcases lt_or_eq_of_le hf with hlt | heq
  · calc rndHE x ≤ ⌊x⌋ + 1 := rndHE_le_floor_add_one x
    _ ≤ ⌊y⌋ := by omega
    _ ≤ rndHE y := floor_le_rndHE y
  · unfold rndHE
    dsimp only
    rw [← heq]
    have hr : x - (⌊x⌋ : ℚ) ≤ y - (⌊x⌋ : ℚ) := by linarith
    split_ifs <;> first | omega | linarith

theorem rndHE_intCast (k : ℤ) : rndHE (k : ℚ) = k := by
  unfold rndHE
  dsimp only
  rw [Int.floor_intCast]
  split_ifs with h1
  · rfl
  all_goals exfalso; simp only [sub_self] at h1; norm_num at h1

theorem roundTo_mono (n : ℕ) {x y : ℚ} (h : x ≤ y) : roundTo n x ≤ roundTo n y := by
  unfold roundTo
  have hp : (0 : ℚ) < 10 ^ n := by positivity
  have hd : ((rndHE (x * 10 ^ n) : ℚ)) ≤ ((rndHE (y * 10 ^ n) : ℚ)) := by
    exact_mod_cast rndHE_mono (mul_le_mul_of_nonneg_right h (le_of_lt hp))
  exact div_le_div_of_nonneg_right hd hp.le

theorem roundTo_zero (n : ℕ) : roundTo n 0 = 0 := by
  unfold roundTo
  rw [zero_mul]
  have : ((0 : ℤ) : ℚ) = (0 : ℚ) := by norm_num
  rw [← this, rndHE_intCast]
  norm_num

theorem roundTo_one (n : ℕ) : roundTo n 1 = 1 := by
  unfold roundTo
  rw [one_mul]
  have h10 : ((10 : ℚ) ^ n) = (((10 : ℤ) ^ n : ℤ) : ℚ) := by push_cast; ring
  rw [h10, rndHE_intCast]
  have : ((10 : ℤ) ^ n : ℚ) ≠ 0 := by positivity
  field_simp

theorem roundTo_nonneg (n : ℕ) {x : ℚ} (h : 0 ≤ x) : 0 ≤ roundTo n x := by
  have := roundTo_mono n h
  rwa [roundTo_zero] at this

theorem roundTo_le_one (n : ℕ) {x : ℚ} (h : x ≤ 1) : roundTo n x ≤ 1 := by
  have := roundTo_mono n h
  rwa [roundTo_one] at this

/-! ### Character-level model of Python string primitives (ASCII range) -/

/-- Model of Python `str.lower` on one character (ASCII case folding, as
exercised by the repository's ASCII skill database and texts). -/
def lowerChar (c : Char) : Char :=
  if 65 ≤ c.toNat ∧ c.toNat ≤ 90 then Char.ofNat (c.toNat + 32) else c

/-- The whitespace characters of Python's `str.split` / regex `\s`
(ASCII range). -/
def pyIsSpace (c : Char) : Bool :=
  c == ' ' || c == '\t' || c == '\n' || c == '\x0d' || c == '\x0b' || c == '\x0c'

/-- Characters kept by `re.sub(r'[^a-zA-Z0-9\s\+\#]', ' ', text)` in
`KeywordExtractor.preprocess_text`. -/
def allowedChar (c : Char) : Bool :=
  c.isAlpha || c.isDigit || pyIsSpace c || c == '+' || c == '#'

/-- Maximal whitespace-free runs of a character list: model of Python
`str.split()` (split on whitespace runs, dropping empty fields). -/
def pyWords : List Char → List (List Char)
  | [] => []
  | c :: cs =>
    if pyIsSpace c then pyWords cs
    else (c :: cs.takeWhile (fun d => !pyIsSpace d)) ::
      pyWords (cs.dropWhile (fun d => !pyIsSpace d))
termination_by l => l.length
decreasing_by
  · simp only [List.length_cons]; omega
  · simp only [List.length_cons]
    have h : (cs.dropWhile (fun d => !pyIsSpace d)).length ≤ cs.length :=
      (List.dropWhile_sublist (fun d => !pyIsSpace d)).length_le
    omega

/-- Model of `' '.join(ws)`. -/
def joinWords : List (List Char) → List Char
  | [] => []
  | [w] => w
  | w :: ws => w ++ ' ' :: joinWords ws

/-- `KeywordExtractor.preprocess_text`: lowercase, replace characters
outside `[a-zA-Z0-9\s+#]` with a space, collapse whitespace, trim. -/
def preprocess_text (text : String) : String :=
  let lowered := text.data.map lowerChar
  let replaced := lowered.map (fun c => if allowedChar c then c else ' ')
  ⟨joinWords (pyWords replaced)⟩

theorem toNat_ofNat_of_valid {n : ℕ} (h : Nat.isValidChar n) :
    (Char.ofNat n).toNat = n := by
  unfold Char.ofNat
  rw [dif_pos h]
  rfl

theorem lowerChar_not_upper (c : Char) :
    ¬(65 ≤ (lowerChar c).toNat ∧ (lowerChar c).toNat ≤ 90) := by
  unfold lowerChar
  split_ifs with h
  · have hv : Nat.isValidChar (c.toNat + 32) := Or.inl (by omega)
    rw [toNat_ofNat_of_valid hv]
    omega
  · omega

theorem lowerChar_of_not_upper {c : Char}
    (h : ¬(65 ≤ c.toNat ∧ c.toNat ≤ 90)) : lowerChar c = c := if_neg h

theorem lowerChar_idem (c : Char) : lowerChar (lowerChar c) = lowerChar c :=
  lowerChar_of_not_upper (lowerChar_not_upper c)

/-- Characters that survive normalization unchanged on a second pass. -/
theorem kept_of_replaced (c : Char) :
    lowerChar (if allowedChar (lowerChar c) then lowerChar c else ' ') =
      (if allowedChar (lowerChar c) then lowerChar c else ' ') ∧
    allowedChar (if allowedChar (lowerChar c) then lowerChar c else ' ') = true := by
  split_ifs with h
  · exact ⟨lowerChar_idem c, h⟩
  · refine ⟨?_, by decide⟩
    apply lowerChar_of_not_upper
    decide

theorem pyWords_mem :
    ∀ (l : List Char), ∀ w ∈ pyWords l,
      w ≠ [] ∧ ∀ c ∈ w, c ∈ l ∧ pyIsSpace c = false := by
  intro l
  induction l using pyWords.induct with
  | case1 => intro w hw; simp [pyWords] at hw
  | case2 c cs hsp ih =>
    intro w hw
    rw [pyWords, if_pos hsp] at hw
    obtain ⟨hne, hmem⟩ := ih w hw
    exact ⟨hne, fun d hd => ⟨List.mem_cons_of_mem c (hmem d hd).1, (hmem d hd).2⟩⟩
  | case3 c cs hsp ih =>
    intro w hw
    rw [pyWords, if_neg hsp] at hw
    rcases List.mem_cons.mp hw with hw | hw
    · subst hw
      refine ⟨by simp, ?_⟩
      intro d hd
      rcases List.mem_cons.mp hd with hd | hd
      · subst hd
        exact ⟨List.mem_cons_self _ _, by simpa using hsp⟩
      · have hdcs : d ∈ cs := (List.takeWhile_sublist _).subset hd
        have hdns := List.mem_takeWhile_imp hd
        exact ⟨List.mem_cons_of_mem c hdcs, by simpa using hdns⟩
    · obtain ⟨hne, hmem⟩ := ih w hw
      refine ⟨hne, fun d hd => ?_⟩
      obtain ⟨hdl, hdns⟩ := hmem d hd
      exact ⟨List.mem_cons_of_mem c ((List.dropWhile_sublist _).subset hdl), hdns⟩

theorem pyWords_single {w : List Char} (hne : w ≠ [])
    (hns : ∀ c ∈ w, pyIsSpace c = false) : pyWords w = [w] := by
  match w, hne with
  | c :: cs, _ =>
    have hc : pyIsSpace c = false := hns c (List.mem_cons_self _ _)
    rw [pyWords, if_neg (by simp [hc])]
    have ht : cs.takeWhile (fun d => !pyIsSpace d) = cs :=
      List.takeWhile_eq_self_iff.mpr (fun d hd => by
        simp [hns d (List.mem_cons_of_mem c hd)])
    have hd : cs.dropWhile (fun d => !pyIsSpace d) = [] :=
      List.dropWhile_eq_nil_iff.mpr (fun d hd => by
        simp [hns d (List.mem_cons_of_mem c hd)])
    rw [ht, hd]
    simp [pyWords]

theorem pyWords_word_append {w t : List Char} (hne : w ≠ [])
    (hns : ∀ c ∈ w, pyIsSpace c = false) :
    pyWords (w ++ ' ' :: t) = w :: pyWords t := by
  match w, hne with
  | c :: cs, _ =>
    have hc : pyIsSpace c = false := hns c (List.mem_cons_self _ _)
    have hcs : ∀ d ∈ cs, (fun d => !pyIsSpace d) d = true := fun d hd => by
      simp [hns d (List.mem_cons_of_mem c hd)]
    rw [List.cons_append, pyWords, if_neg (by simp [hc])]
    rw [List.takeWhile_append_of_pos hcs, List.dropWhile_append_of_pos hcs]
    have h1 : (' ' :: t).takeWhile (fun d => !pyIsSpace d) = [] := by
      rw [List.takeWhile_cons]
      simp [pyIsSpace]
    have h2 : (' ' :: t).dropWhile (fun d => !pyIsSpace d) = ' ' :: t := by
      rw [List.dropWhile_cons]
      simp [pyIsSpace]
    rw [h1, h2, List.append_nil, pyWords, if_pos (by simp [pyIsSpace])]

theorem pyWords_joinWords :
    ∀ (ws : List (List Char)),
      (∀ w ∈ ws, w ≠ [] ∧ ∀ c ∈ w, pyIsSpace c = false) →
      pyWords (joinWords ws) = ws := by
  intro ws
  induction ws with
  | nil => intro _; simp [joinWords, pyWords]
  | cons w ws ih =>
    intro h
    obtain ⟨hne, hns⟩ := h w (List.mem_cons_self _ _)
    match ws with
    | [] => exact pyWords_single hne hns
    | w' :: ws' =>
      have hjw : joinWords (w :: w' :: ws') = w ++ ' ' :: joinWords (w' :: ws') := rfl
      rw [hjw, pyWords_word_append hne hns,
        ih (fun v hv => h v (List.mem_cons_of_mem w hv))]

theorem mem_joinWords :
    ∀ (ws : List (List Char)), ∀ c ∈ joinWords ws,
      c = ' ' ∨ ∃ w ∈ ws, c ∈ w := by
  intro ws
  induction ws with
  | nil => intro c hc; simp [joinWords] at hc
  | cons w ws ih =>
    intro c hc
    match ws with
    | [] =>
      right
      exact ⟨w, List.mem_cons_self _ _, hc⟩
    | w' :: ws' =>
      have hjw : joinWords (w :: w' :: ws') = w ++ ' ' :: joinWords (w' :: ws') := rfl
      rw [hjw] at hc
      rcases List.mem_append.mp hc with hc | hc
      · exact Or.inr ⟨w, List.mem_cons_self _ _, hc⟩
      · rcases List.mem_cons.mp hc with hc | hc
        · exact Or.inl hc
        · rcases ih c hc with hsp | ⟨v, hv, hcv⟩
          · exact Or.inl hsp
          · exact Or.inr ⟨v, List.mem_cons_of_mem w hv, hcv⟩

theorem map_eq_self_of_fixed {f : Char → Char} {l : List Char}
    (h : ∀ c ∈ l, f c = c) : l.map f = l :=
  (List.map_congr_left h).trans l.map_id

/-- C7: the text-normalization function `preprocess_text` (lowercase,
replace characters outside letters/digits/space/+/# with a space,
collapse whitespace, trim) is idempotent:
`preprocess_text (preprocess_text x) = preprocess_text x`. -/
theorem C7_preprocess_text_idempotent (text : String) :
    preprocess_text (preprocess_text text) = preprocess_text text := by
  unfold preprocess_text
  dsimp only
  congr 1
  rw [List.map_map, List.map_map]
  set z := text.data.map
    ((fun c => if allowedChar c then c else ' ') ∘ lowerChar) with hz
  set y := joinWords (pyWords z) with hy
  have hkept : ∀ c ∈ y, lowerChar c = c ∧ allowedChar c = true := by
    intro c hc
    rcases mem_joinWords (pyWords z) c hc with hsp | ⟨w, hw, hcw⟩
    · subst hsp
      exact ⟨by decide, by decide⟩
    · have hcz : c ∈ z := ((pyWords_mem z w hw).2 c hcw).1
      rw [hz] at hcz
      rcases List.mem_map.mp hcz with ⟨b, _, hb⟩
      rw [← hb]
      exact kept_of_replaced b
  have hlow : y.map lowerChar = y :=
    map_eq_self_of_fixed (fun c hc => (hkept c hc).1)
  have hcomp : y.map ((fun c => if allowedChar c then c else ' ') ∘ lowerChar) = y := by
    rw [← List.map_map, hlow]
    exact map_eq_self_of_fixed (fun c hc => if_pos (hkept c hc).2)
  have hws : ∀ w ∈ pyWords z, w ≠ [] ∧ ∀ c ∈ w, pyIsSpace c = false := by
    intro w hw
    obtain ⟨hne, hmem⟩ := pyWords_mem z w hw
    exact ⟨hne, fun c hc => (hmem c hc).2⟩
  rw [hcomp, pyWords_joinWords (pyWords z) hws]

/-! ### SimilarityCalculator (`similarity_calculator.py`)

Python dict payloads become structures; Python `set`s become `Finset
String` (list materializations of sets have unspecified iteration order
in Python, so set-valued fields stay `Finset`s and any list view is
sorted).  The scikit-learn cosine similarity
(`cosine_similarity_score`) is an external backend and is passed as a
function parameter `cosine`. -/

/-- Keyword bundle as produced by `KeywordExtractor.extract_keywords`;
`.get(key, [])` accesses are modelled by the field defaults, and the
`spacy_keywords` key is absent (`none`) when the spaCy backend is off. -/
structure KeywordDict where
  technical_skills : List String := []
  tfidf_keywords : List String := []
  spacy_keywords : Option (List String) := none
  all_keywords : List String := []

/-- Result dictionary of `SimilarityCalculator.keyword_overlap_score`. -/
structure KeywordOverlap where
  jaccard_similarity : ℚ
  match_rate : ℚ
  matched_keywords : Finset String
  matched_count : ℕ
  total_job_keywords : ℕ
  coverage_percentage : ℚ

/-- `SimilarityCalculator.jaccard_similarity`. -/
def jaccard_similarity (set1 set2 : Finset String) : ℚ :=
  if set1 = ∅ ∨ set2 = ∅ then 0
  else
    let i := (set1 ∩ set2).card
    let u := (set1 ∪ set2).card
    if 0 < u then (i : ℚ) / u else 0

/-- `SimilarityCalculator.keyword_overlap_score`. -/
def keyword_overlap_score (resume_keywords job_keywords : List String) :
    KeywordOverlap :=
  let resume_set := resume_keywords.toFinset
  let job_set := job_keywords.toFinset
  let matched_keywords := resume_set ∩ job_set
  let jaccard := jaccard_similarity resume_set job_set
  let match_rate : ℚ :=
    if job_set ≠ ∅ then (matched_keywords.card : ℚ) / job_set.card else 0
  { jaccard_similarity := roundTo 4 jaccard
    match_rate := roundTo 4 match_rate
    matched_keywords := matched_keywords
    matched_count := matched_keywords.card
    total_job_keywords := job_set.card
    coverage_percentage := roundTo 2 (match_rate * 100) }

/-- The two weighted combinations of `calculate_weighted_score`:
normal weights when both TF-IDF keyword lists are non-empty, fallback
weights otherwise. -/
def weighted_score (has_tfidf : Bool)
    (skills_rate tfidf_rate all_kw_rate text_similarity : ℚ) : ℚ :=
  if has_tfidf then
    skills_rate * (50 / 100) + tfidf_rate * (25 / 100) +
      all_kw_rate * (15 / 100) + text_similarity * (10 / 100)
  else
    skills_rate * (60 / 100) + all_kw_rate * (30 / 100) +
      text_similarity * (10 / 100)

/-- `overall_percentage = round(weighted_score * 100, 2)`. -/
def overall_percentage_of (weighted : ℚ) : ℚ := roundTo 2 (weighted * 100)

/-- The match-level bucket chain of `calculate_weighted_score`. -/
def match_level_of (overall_percentage : ℚ) : String :=
  if overall_percentage ≥ 80 then "Excellent Match"
  else if overall_percentage ≥ 65 then "Good Match"
  else if overall_percentage ≥ 50 then "Moderate Match"
  else if overall_percentage ≥ 35 then "Low Match"
  else "Poor Match"

/-- The `detailed_scores` sub-dictionary. -/
structure DetailedScores where
  text_similarity : ℚ
  skills_match_rate : ℚ
  tfidf_match_rate : ℚ
  all_keywords_match_rate : ℚ

/-- Result dictionary of `SimilarityCalculator.calculate_weighted_score`. -/
structure ScoreResult where
  overall_score : ℚ
  overall_percentage : ℚ
  match_level : String
  detailed_scores : DetailedScores
  matched_skills : Finset String
  matched_tfidf_keywords : Finset String
  skills_coverage : ℚ
  missing_skills : Finset String

/-- `SimilarityCalculator.calculate_weighted_score`; `cosine` models the
scikit-learn-backed `cosine_similarity_score` method. -/
def calculate_weighted_score (cosine : String → String → ℚ)
    (resume_text job_text : String)
    (resume_keywords job_keywords : KeywordDict) : ScoreResult :=
  let text_similarity := cosine resume_text job_text
  let all_kw_overlap :=
    keyword_overlap_score resume_keywords.all_keywords job_keywords.all_keywords
  let skills_overlap :=
    keyword_overlap_score resume_keywords.technical_skills job_keywords.technical_skills
  let tfidf_overlap :=
    keyword_overlap_score resume_keywords.tfidf_keywords job_keywords.tfidf_keywords
  let has_tfidf : Bool :=
    decide (0 < resume_keywords.tfidf_keywords.length) &&
      decide (0 < job_keywords.tfidf_keywords.length)
  let ws := weighted_score has_tfidf skills_overlap.match_rate
    tfidf_overlap.match_rate all_kw_overlap.match_rate text_similarity
  let overall_percentage := overall_percentage_of ws
  { overall_score := roundTo 4 ws
    overall_percentage := overall_percentage
    match_level := match_level_of overall_percentage
    detailed_scores :=
      { text_similarity := text_similarity
        skills_match_rate := skills_overlap.match_rate
        tfidf_match_rate := tfidf_overlap.match_rate
        all_keywords_match_rate := all_kw_overlap.match_rate }
    matched_skills := skills_overlap.matched_keywords
    matched_tfidf_keywords := tfidf_overlap.matched_keywords
    skills_coverage := skills_overlap.coverage_percentage
    missing_skills :=
      job_keywords.technical_skills.toFinset \ resume_keywords.technical_skills.toFinset }

/-- `SimilarityCalculator.generate_recommendations` (emoji prefixes of
the source strings omitted). -/
def generate_recommendations (score_results : ScoreResult) : List String :=
  let overall_pct := score_results.overall_percentage
  let missing_skills := Finset.sort (· ≤ ·) score_results.missing_skills
  (if overall_pct < 50 then
    ["Low match score. Consider tailoring your resume to this job description."]
   else []) ++
  (if missing_skills ≠ [] then
    ["Add these missing skills if you have them: " ++
      String.intercalate ", " (missing_skills.take 5)]
   else []) ++
  (if score_results.detailed_scores.skills_match_rate < 5 / 10 then
    ["Highlight more relevant technical skills from the job description."]
   else []) ++
  (if overall_pct ≥ 70 then
    ["Strong match! Your resume aligns well with the job requirements."]
   else [])

/-! ### Evaluation helpers for the rounding model -/

theorem rndHE_of_fract_lt {x : ℚ} {f : ℤ} (hf : ⌊x⌋ = f)
    (h : x - f < 1 / 2) : rndHE x = f := by
  simp only [rndHE, hf]
  rw [if_pos h]

theorem roundTo_eq_self {n : ℕ} {x : ℚ} (k : ℤ) (h : x * 10 ^ n = (k : ℚ)) :
    roundTo n x = x := by
  unfold roundTo
  rw [h, rndHE_intCast, ← h]
  have hp : ((10 : ℚ) ^ n) ≠ 0 := by positivity
  field_simp

/-- The `match_rate` field in terms of the set cardinalities (in `ℚ`,
division by a zero denominator is `0`, which coincides with the source's
explicit empty-set guard). -/
theorem match_rate_eq (r j : List String) :
    (keyword_overlap_score r j).match_rate =
      roundTo 4 (((r.toFinset ∩ j.toFinset).card : ℚ) / (j.toFinset.card : ℚ)) := by
  show roundTo 4 (if j.toFinset ≠ ∅ then
      ((r.toFinset ∩ j.toFinset).card : ℚ) / (j.toFinset.card : ℚ) else 0) = _
  by_cases hj : j.toFinset = ∅
  · rw [if_neg (not_not_intro hj), hj]
    simp
  · rw [if_pos hj]

/-- C3 (amended): `keyword_overlap_score` returns a `match_rate` equal to
`|resume_set ∩ job_set| / |job_set|` rounded half-even to 4 decimal
digits; it always lies in `[0,1]` and equals exactly `0` when the
job-side set is empty (never a division fault). -/
theorem C3_match_rate_bounds (resume_keywords job_keywords : List String) :
    (keyword_overlap_score resume_keywords job_keywords).match_rate =
        roundTo 4 (((resume_keywords.toFinset ∩ job_keywords.toFinset).card : ℚ) /
          (job_keywords.toFinset.card : ℚ)) ∧
      0 ≤ (keyword_overlap_score resume_keywords job_keywords).match_rate ∧
      (keyword_overlap_score resume_keywords job_keywords).match_rate ≤ 1 ∧
      (keyword_overlap_score resume_keywords []).match_rate = 0 := by
  have hratio0 : (0 : ℚ) ≤
      ((resume_keywords.toFinset ∩ job_keywords.toFinset).card : ℚ) /
        (job_keywords.toFinset.card : ℚ) := by positivity
  have hratio1 : ((resume_keywords.toFinset ∩ job_keywords.toFinset).card : ℚ) /
      (job_keywords.toFinset.card : ℚ) ≤ 1 := by
    rcases Nat.eq_zero_or_pos job_keywords.toFinset.card with hz | hpos
    · rw [hz]
      norm_num
    · rw [div_le_one (by exact_mod_cast hpos)]
      exact_mod_cast Finset.card_le_card Finset.inter_subset_right
  refine ⟨match_rate_eq _ _, ?_, ?_, ?_⟩
  · rw [match_rate_eq]
    exact roundTo_nonneg 4 hratio0
  · rw [match_rate_eq]
    exact roundTo_le_one 4 hratio1
  · rw [match_rate_eq]
    simp [roundTo_zero]

/-- C3 counterexample: as literally stated the claim equates the returned
`match_rate` with the exact ratio `|∩| / |job_set|`; for one matched
keyword out of three the code returns the 4-digit rounding `0.3333`,
which differs from `1/3`. -/
theorem C3_counterexample :
    (keyword_overlap_score ["a"] ["a", "b", "c"]).match_rate ≠ 1 / 3 ∧
      (keyword_overlap_score ["a"] ["a", "b", "c"]).match_rate = 3333 / 10000 := by
  have h1 : ((["a"] : List String).toFinset ∩
      (["a", "b", "c"] : List String).toFinset).card = 1 := by decide
  have h2 : ((["a", "b", "c"] : List String).toFinset).card = 3 := by decide
  have hm : (keyword_overlap_score ["a"] ["a", "b", "c"]).match_rate =
      roundTo 4 ((1 : ℚ) / 3) := by
    rw [match_rate_eq, h1, h2]
    norm_num
  have hf : ⌊(1 / 3 : ℚ) * 10 ^ 4⌋ = 3333 := by
    rw [Int.floor_eq_iff] <;> norm_num
  have hval : roundTo 4 ((1 : ℚ) / 3) = 3333 / 10000 := by
    unfold roundTo
    rw [rndHE_of_fract_lt hf (by norm_num)]
    norm_num
  rw [hm, hval]
  norm_num

/-- C4: in every score result, `missing_skills` is the job's technical
skills minus the resume's, `matched_skills` is their intersection, and
the two are disjoint. -/
theorem C4_missing_matched_disjoint (cosine : String → String → ℚ)
    (resume_text job_text : String) (resume_keywords job_keywords : KeywordDict) :
    (calculate_weighted_score cosine resume_text job_text resume_keywords
        job_keywords).missing_skills =
        job_keywords.technical_skills.toFinset \ resume_keywords.technical_skills.toFinset ∧
      (calculate_weighted_score cosine resume_text job_text resume_keywords
        job_keywords).matched_skills =
        resume_keywords.technical_skills.toFinset ∩ job_keywords.technical_skills.toFinset ∧
      Disjoint
        (calculate_weighted_score cosine resume_text job_text resume_keywords
          job_keywords).missing_skills
        (calculate_weighted_score cosine resume_text job_text resume_keywords
          job_keywords).matched_skills := by
  refine ⟨rfl, rfl, ?_⟩
  show Disjoint
    (job_keywords.technical_skills.toFinset \ resume_keywords.technical_skills.toFinset)
    (resume_keywords.technical_skills.toFinset ∩ job_keywords.technical_skills.toFinset)
  exact Finset.disjoint_left.mpr
    (fun a ha hb => (Finset.mem_sdiff.mp ha).2 (Finset.mem_inter.mp hb).1)

/-- C5: the `match_level` buckets are exactly the fixed thresholds
≥80 Excellent, [65,80) Good, [50,65) Moderate, [35,50) Low, else Poor. -/
theorem C5_match_level_buckets (p : ℚ) :
    (match_level_of p = "Excellent Match" ↔ 80 ≤ p) ∧
      (match_level_of p = "Good Match" ↔ 65 ≤ p ∧ p < 80) ∧
      (match_level_of p = "Moderate Match" ↔ 50 ≤ p ∧ p < 65) ∧
      (match_level_of p = "Low Match" ↔ 35 ≤ p ∧ p < 50) ∧
      (match_level_of p = "Poor Match" ↔ p < 35) := by
  unfold match_level_of
  split_ifs with h1 h2 h3 h4
  · exact ⟨iff_of_true rfl h1,
      iff_of_false (by decide) (by rintro ⟨_, h⟩; linarith),
      iff_of_false (by decide) (by rintro ⟨_, h⟩; linarith),
      iff_of_false (by decide) (by rintro ⟨_, h⟩; linarith),
      iff_of_false (by decide) (by intro h; linarith)⟩
  · exact ⟨iff_of_false (by decide) h1,
      iff_of_true rfl ⟨h2, not_le.mp h1⟩,
      iff_of_false (by decide) (by rintro ⟨_, h⟩; linarith),
      iff_of_false (by decide) (by rintro ⟨_, h⟩; linarith),
      iff_of_false (by decide) (by intro h; linarith)⟩
  · exact ⟨iff_of_false (by decide) h1,
      iff_of_false (by decide) (by rintro ⟨h, _⟩; exact h2 h),
      iff_of_true rfl ⟨h3, not_le.mp h2⟩,
      iff_of_false (by decide) (by rintro ⟨_, h⟩; linarith),
      iff_of_false (by decide) (by intro h; linarith)⟩
  · exact ⟨iff_of_false (by decide) h1,
      iff_of_false (by decide) (by rintro ⟨h, _⟩; exact h2 h),
      iff_of_false (by decide) (by rintro ⟨h, _⟩; exact h3 h),
      iff_of_true rfl ⟨h4, not_le.mp h3⟩,
      iff_of_false (by decide) (by intro h; linarith)⟩
  · exact ⟨iff_of_false (by decide) h1,
      iff_of_false (by decide) (by rintro ⟨h, _⟩; exact h2 h),
      iff_of_false (by decide) (by rintro ⟨h, _⟩; exact h3 h),
      iff_of_false (by decide) (by rintro ⟨h, _⟩; exact h4 h),
      iff_of_true rfl (not_le.mp h4)⟩

/-- C6: with the text-similarity, TF-IDF rate, all-keywords rate and the
weight branch held fixed, a larger skills match rate never yields a
smaller `overall_percentage`. -/
theorem C6_skills_rate_monotone (has_tfidf : Bool)
    (text_similarity tfidf_rate all_kw_rate s₁ s₂ : ℚ) (h : s₁ ≤ s₂) :
    overall_percentage_of
        (weighted_score has_tfidf s₁ tfidf_rate all_kw_rate text_similarity) ≤
      overall_percentage_of
        (weighted_score has_tfidf s₂ tfidf_rate all_kw_rate text_similarity) := by
  unfold overall_percentage_of
  apply roundTo_mono
  apply mul_le_mul_of_nonneg_right ?_ (by norm_num)
  cases has_tfidf <;> norm_num [weighted_score] <;> linarith

theorem C6_witness :
    (0 : ℚ) ≤ 1 ∧
      overall_percentage_of (weighted_score true 0 0 0 0) ≤
        overall_percentage_of (weighted_score true 1 0 0 0) :=
  ⟨by norm_num, C6_skills_rate_monotone true 0 0 0 0 1 (by norm_num)⟩

/-- C10: `generate_recommendations` emits at most three messages, since
each trigger contributes at most one message and the low-match trigger
(`overall_percentage < 50`) and the positive-reinforcement trigger
(`overall_percentage ≥ 70`) are mutually exclusive. -/
theorem C10_recommendations_bound (score_results : ScoreResult) :
    (generate_recommendations score_results).length ≤ 3 ∧
      ¬(score_results.overall_percentage < 50 ∧
        70 ≤ score_results.overall_percentage) := by
  constructor
  · simp only [generate_recommendations]
    split_ifs with h1 h2 h3 h4 <;> simp_all <;> linarith
  · rintro ⟨a, b⟩
    linarith

/-- C1 (amended): the weight set is selected by whether BOTH the
resume's and the job's salient-term (TF-IDF keyword) lists are
non-empty; when both are non-empty the overall percentage is the
2-digit rounding of `(skills*0.50 + salient*0.25 + all_kw*0.15 +
text*0.10) * 100`, otherwise of `(skills*0.60 + all_kw*0.30 +
text*0.10) * 100`, over the reported (4-digit-rounded) sub-scores. -/
theorem C1_weight_fallback_policy (cosine : String → String → ℚ)
    (resume_text job_text : String) (resume_keywords job_keywords : KeywordDict) :
    (calculate_weighted_score cosine resume_text job_text resume_keywords
        job_keywords).overall_percentage =
      roundTo 2
        ((if resume_keywords.tfidf_keywords ≠ [] ∧ job_keywords.tfidf_keywords ≠ [] then
            (calculate_weighted_score cosine resume_text job_text resume_keywords
                job_keywords).detailed_scores.skills_match_rate * (50 / 100) +
              (calculate_weighted_score cosine resume_text job_text resume_keywords
                job_keywords).detailed_scores.tfidf_match_rate * (25 / 100) +
              (calculate_weighted_score cosine resume_text job_text resume_keywords
                job_keywords).detailed_scores.all_keywords_match_rate * (15 / 100) +
              (calculate_weighted_score cosine resume_text job_text resume_keywords
                job_keywords).detailed_scores.text_similarity * (10 / 100)
          else
            (calculate_weighted_score cosine resume_text job_text resume_keywords
                job_keywords).detailed_scores.skills_match_rate * (60 / 100) +
              (calculate_weighted_score cosine resume_text job_text resume_keywords
                job_keywords).detailed_scores.all_keywords_match_rate * (30 / 100) +
              (calculate_weighted_score cosine resume_text job_text resume_keywords
                job_keywords).detailed_scores.text_similarity * (10 / 100)) * 100) := by
  cases hr : resume_keywords.tfidf_keywords <;> cases hj : job_keywords.tfidf_keywords <;>
    simp [calculate_weighted_score, overall_percentage_of, weighted_score, hr, hj]

/-- Concrete resume-side keyword bundle for exercising the weight
fallback: TF-IDF extraction produced nothing on the resume side. -/
def fb_resume_kw : KeywordDict :=
  { technical_skills := ["python"], tfidf_keywords := [], all_keywords := ["python"] }

/-- Concrete job-side keyword bundle with a non-empty TF-IDF list. -/
def fb_job_kw : KeywordDict :=
  { technical_skills := ["python"], tfidf_keywords := ["cloud"],
    all_keywords := ["python", "cloud"] }

/-- The score record of the fallback scenario (`cosine` degenerate). -/
def fb_result : ScoreResult :=
  calculate_weighted_score (fun _ _ => 0) "resume text" "job text" fb_resume_kw fb_job_kw

theorem fb_skills_rate : (keyword_overlap_score ["python"] ["python"]).match_rate = 1 := by
  rw [match_rate_eq]
  have e1 : ((["python"] : List String).toFinset ∩
      (["python"] : List String).toFinset).card = 1 := by decide
  have e2 : ((["python"] : List String).toFinset).card = 1 := by decide
  rw [e1, e2]
  norm_num [roundTo_one]

theorem fb_tfidf_rate : (keyword_overlap_score [] ["cloud"]).match_rate = 0 := by
  rw [match_rate_eq]
  have e1 : ((([] : List String)).toFinset ∩
      (["cloud"] : List String).toFinset).card = 0 := by decide
  have e2 : ((["cloud"] : List String).toFinset).card = 1 := by decide
  rw [e1, e2]
  norm_num [roundTo_zero]

theorem fb_all_kw_rate :
    (keyword_overlap_score ["python"] ["python", "cloud"]).match_rate = 1 / 2 := by
  rw [match_rate_eq]
  have e1 : ((["python"] : List String).toFinset ∩
      (["python", "cloud"] : List String).toFinset).card = 1 := by decide
  have e2 : ((["python", "cloud"] : List String).toFinset).card = 2 := by decide
  rw [e1, e2]
  have hcast : (((1 : ℕ) : ℚ)) / (((2 : ℕ) : ℚ)) = (1 : ℚ) / 2 := by norm_num
  rw [hcast]
  exact roundTo_eq_self 5000 (by norm_num)

/-- C1 counterexample: with the job's salient-term list non-empty but the
resume's empty, the code takes the fallback branch (skills 0.60,
all-keywords 0.30, text 0.10) and reports 75, while the claim's
"job-side-only" rule would demand the four-signal formula, which
evaluates to 57.5 here. -/
theorem C1_counterexample :
    fb_job_kw.tfidf_keywords ≠ [] ∧
      fb_result.overall_percentage = 75 ∧
      roundTo 2
        ((fb_result.detailed_scores.skills_match_rate * (50 / 100) +
          fb_result.detailed_scores.tfidf_match_rate * (25 / 100) +
          fb_result.detailed_scores.all_keywords_match_rate * (15 / 100) +
          fb_result.detailed_scores.text_similarity * (10 / 100)) * 100) = 575 / 10 ∧
      (75 : ℚ) ≠ 575 / 10 := by
  have ds : fb_result.detailed_scores.skills_match_rate =
      (keyword_overlap_score ["python"] ["python"]).match_rate := rfl
  have dt : fb_result.detailed_scores.tfidf_match_rate =
      (keyword_overlap_score [] ["cloud"]).match_rate := rfl
  have da : fb_result.detailed_scores.all_keywords_match_rate =
      (keyword_overlap_score ["python"] ["python", "cloud"]).match_rate := rfl
  have dx : fb_result.detailed_scores.text_similarity = 0 := rfl
  have hperc : fb_result.overall_percentage =
      roundTo 2 (weighted_score false
        (keyword_overlap_score ["python"] ["python"]).match_rate
        (keyword_overlap_score [] ["cloud"]).match_rate
        (keyword_overlap_score ["python"] ["python", "cloud"]).match_rate 0 * 100) := rfl
  refine ⟨by simp [fb_job_kw], ?_, ?_, by norm_num⟩
  · rw [hperc, fb_skills_rate, fb_tfidf_rate, fb_all_kw_rate]
    have hws : weighted_score false 1 0 (1 / 2 : ℚ) 0 = 3 / 4 := by
      norm_num [weighted_score]
    rw [hws, show (3 / 4 : ℚ) * 100 = 75 by norm_num]
    exact roundTo_eq_self 7500 (by norm_num)
  · rw [ds, dt, da, dx, fb_skills_rate, fb_tfidf_rate, fb_all_kw_rate]
    rw [show ((1 : ℚ) * (50 / 100) + 0 * (25 / 100) + (1 / 2 : ℚ) * (15 / 100) +
      0 * (10 / 100)) * 100 = 575 / 10 by norm_num]
    exact roundTo_eq_self 5750 (by norm_num)

/-! ### KeywordExtractor (`keyword_extractor.py`)

`extract_keywords_tfidf` (scikit-learn vectorizer) and
`extract_keywords_spacy` (spaCy pipeline) are external NLP backends and
are passed as function parameters; `extract_technical_skills` is pure and
embedded in full, including its skills database and the regex
word-boundary semantics of the single-word pass. -/

/-- The `skills_database` set literal of `extract_technical_skills`
(duplicated Python entries collapse under set semantics, as they do in
the source). -/
def skills_database : List String :=
  ["python", "java", "javascript", "typescript", "c++", "c#", "c ", "ruby", "go",
   "golang", "rust", "php", "swift", "kotlin", "scala", "r", "matlab", "sql",
   "perl", "bash", "powershell", "vba", "sas", "julia", "dart", "objective-c",
   "html", "html5", "css", "css3", "react", "reactjs", "angular", "angularjs",
   "vue", "vuejs", "node.js", "nodejs", "django", "flask", "spring",
   "spring boot", "express", "expressjs", "fastapi", "next.js", "nextjs",
   "gatsby", "jquery", "bootstrap", "tailwind", "asp.net", "laravel",
   "ruby on rails", "svelte",
   "mysql", "postgresql", "postgres", "mongodb", "redis", "elasticsearch",
   "oracle", "dynamodb", "cassandra", "neo4j", "sqlite", "mariadb",
   "microsoft sql server", "sql server", "couchdb", "firebase", "snowflake",
   "bigquery", "redshift",
   "aws", "amazon web services", "azure", "microsoft azure", "gcp",
   "google cloud", "docker", "kubernetes", "k8s", "jenkins", "gitlab",
   "github actions", "terraform", "ansible", "ci/cd", "circleci", "travis ci",
   "cloudformation", "vagrant", "puppet", "chef", "bamboo",
   "machine learning", "deep learning", "nlp", "natural language processing",
   "tensorflow", "pytorch", "keras", "scikit-learn", "sklearn", "pandas",
   "numpy", "spark", "apache spark", "hadoop", "pyspark", "jupyter", "tableau",
   "power bi", "looker", "data analysis", "data analytics",
   "data visualization", "data mining", "statistical analysis",
   "predictive modeling", "forecasting", "time series", "regression",
   "classification", "clustering", "neural networks", "computer vision",
   "image processing", "opencv", "data warehousing", "etl", "big data",
   "business intelligence", "analytics", "quantitative analysis",
   "operations management", "process optimization", "supply chain",
   "inventory management", "logistics", "lean", "six sigma", "kaizen",
   "project management", "agile", "scrum", "kanban", "waterfall",
   "business analysis", "business process", "kpi", "metrics",
   "performance management", "quality assurance", "quality control",
   "continuous improvement",
   "git", "github", "gitlab", "bitbucket", "svn", "mercurial",
   "version control",
   "unit testing", "integration testing", "selenium", "pytest", "junit",
   "jest", "testing", "test automation", "qa", "tdd", "bdd",
   "linux", "unix", "windows server", "jira", "confluence", "slack", "teams",
   "rest api", "restful", "graphql", "soap", "microservices", "api", "json",
   "xml", "yaml", "grpc", "websocket", "oauth", "jwt", "excel",
   "microsoft excel", "google sheets", "vba", "macros", "powerpoint", "word",
   "office 365", "google workspace",
   "leadership", "cross-functional", "stakeholder management",
   "communication", "problem solving", "critical thinking", "decision making",
   "strategic planning", "change management", "vendor management",
   "budget management", "root cause analysis", "swot analysis",
   "gap analysis",
   "agile methodology", "scrum methodology", "devops", "devsecops",
   "continuous integration", "continuous deployment", "automation"]

/-- Regex `\w` (ASCII): letters, digits, underscore. -/
def isWordChar (c : Char) : Bool := c.isAlphanum || c == '_'

/-- A regex `\b` sits between two (possibly absent) characters exactly
when their word-character statuses differ. -/
def wordnessDiffers (a b : Option Char) : Bool :=
  (match a with | some c => isWordChar c | none => false) !=
    (match b with | some c => isWordChar c | none => false)

/-- Does `\b ++ re.escape(skill) ++ \b` match at the current position,
`prev` being the preceding text character? -/
def wbHere (skill : List Char) (prev : Option Char) (t : List Char) : Bool :=
  skill.isPrefixOf t &&
    wordnessDiffers prev skill.head? &&
    wordnessDiffers skill.getLast? ((t.drop skill.length).head?)

/-- Scan of `re.search` over every position of the text. -/
def wbSearch (skill : List Char) (prev : Option Char) : List Char → Bool
  | [] => wbHere skill prev []
  | c :: ts => wbHere skill prev (c :: ts) || wbSearch skill (some c) ts

/-- `re.search(r'\b' + re.escape(skill) + r'\b', text)` as a Boolean. -/
def wbMatch (skill text : List Char) : Bool := wbSearch skill none text

/-- Python's substring test `needle in hay`. -/
def containsSub (needle : List Char) : List Char → Bool
  | [] => needle.isEmpty
  | c :: t => needle.isPrefixOf (c :: t) || containsSub needle t

/-- `KeywordExtractor.extract_technical_skills`: multi-word entries by
substring containment, single-word entries by word-boundary regex
search, both against the lowercased text. -/
def extract_technical_skills (text : String) : Finset String :=
  let text_lower := text.data.map lowerChar
  (skills_database.filter (fun skill =>
    if skill.contains ' ' then containsSub skill.data text_lower
    else wbMatch skill.data text_lower)).toFinset

/-- `KeywordExtractor.extract_keywords`; `tfidf` models
`extract_keywords_tfidf` and `spacy` models the optional
`extract_keywords_spacy` backend (absent when spaCy is disabled). -/
def extract_keywords (tfidf : String → List String)
    (spacy : Option (String → List String)) (text : String) : KeywordDict :=
  let technical_skills := Finset.sort (· ≤ ·) (extract_technical_skills text)
  let tfidf_keywords := tfidf text
  let spacy_keywords := spacy.map (fun f => f text)
  let all_keywords : Finset String :=
    technical_skills.toFinset ∪ tfidf_keywords.toFinset ∪
      (spacy_keywords.getD []).toFinset
  { technical_skills := technical_skills
    tfidf_keywords := tfidf_keywords
    spacy_keywords := spacy_keywords
    all_keywords := Finset.sort (· ≤ ·) all_keywords }

/-- C8: every keyword bundle built by `extract_keywords` satisfies
`technical_skills ⊆ all_keywords`, and `all_keywords` (the set union of
the per-method keyword collections) is duplicate-free. -/
theorem C8_all_keywords_superset_nodup (tfidf : String → List String)
    (spacy : Option (String → List String)) (text : String) :
    (∀ s ∈ (extract_keywords tfidf spacy text).technical_skills,
        s ∈ (extract_keywords tfidf spacy text).all_keywords) ∧
      (extract_keywords tfidf spacy text).all_keywords.Nodup := by
  simp only [extract_keywords]
  constructor
  · intro s hs
    rw [Finset.mem_sort]
    apply Finset.mem_union_left
    apply Finset.mem_union_left
    exact List.mem_toFinset.mpr hs
  · exact Finset.sort_nodup _ _

/-! ### RAGSkillsExtractor (`rag_skills_extractor.py`)

The sentence-transformer embedding model is external; the cosine
similarity between (the embeddings of) an n-gram and a vocabulary skill
is modelled as an abstract function `sim`.  N-gram generation and the
aggregate/filter/sort logic of `extract_skills_rag` are embedded in
full. -/

/-- Characters kept by `re.sub(r'[^\w\s\.\-\+\#\(\)\/\&]', ' ', text)`
in `_extract_ngrams`. -/
def ngramKeep (c : Char) : Bool :=
  isWordChar c || pyIsSpace c || c == '.' || c == '-' || c == '+' || c == '#' ||
    c == '(' || c == ')' || c == '/' || c == '&'

/-- `RAGSkillsExtractor._extract_ngrams` with the default range (1,5):
all 1- to 5-word windows of the cleaned, whitespace-split text, keeping
only n-grams longer than one character. -/
def extract_ngrams (text : String) : List String :=
  let cleaned := text.data.map (fun c => if ngramKeep c then c else ' ')
  let words := (pyWords cleaned).map (fun w => String.mk w)
  (List.range' 1 5).flatMap (fun n =>
    (List.range (words.length + 1 - n)).filterMap (fun i =>
      let ngram := String.intercalate " " ((words.drop i).take n)
      if 1 < ngram.length then some ngram else none))

/-- `np.max(similarities, axis=0)` for one skill: the maximum similarity
the skill achieves against any n-gram (`0` only in the vacuous case the
caller already filtered out). -/
def max_ngram_sim (sim : String → String → ℚ) (ngrams : List String)
    (skill : String) : ℚ :=
  match ngrams with
  | [] => 0
  | g :: gs => gs.foldl (fun acc g2 => max acc (sim g2 skill)) (sim g skill)

/-- `RAGSkillsExtractor.extract_skills_rag` with `return_scores=True`:
the `(skill, score)` pairs above the threshold, sorted by descending
score (Python's stable sort modelled by the stable `mergeSort`),
optionally truncated to `top_k` (Python treats `0` and `None` alike). -/
def extract_skills_rag (skills_list : List String)
    (sim : String → String → ℚ) (text : String) (threshold : ℚ)
    (top_k : Option ℕ) : List (String × ℚ) :=
  let ngrams := extract_ngrams text
  if ngrams.isEmpty then []
  else
    let detected_skills := skills_list.filterMap (fun skill =>
      let score := max_ngram_sim sim ngrams skill
      if threshold ≤ score then some (skill, score) else none)
    let sorted := detected_skills.mergeSort (fun a b => decide (b.2 ≤ a.2))
    match top_k with
    | some k => if k ≠ 0 then sorted.take k else sorted
    | none => sorted

theorem le_foldl_max (l : List ℚ) (a : ℚ) : a ≤ l.foldl max a := by
  induction l generalizing a with
  | nil => exact le_refl a
  | cons x xs ih => exact le_trans (le_max_left a x) (ih (max a x))

theorem mem_le_foldl_max (l : List ℚ) (a : ℚ) : ∀ x ∈ l, x ≤ l.foldl max a := by
  induction l generalizing a with
  | nil => simp
  | cons y ys ih =>
    intro x hx
    rcases List.mem_cons.mp hx with rfl | h
    · exact le_trans (le_max_right a x) (le_foldl_max ys (max a x))
    · exact ih (max a y) x h

theorem foldl_max_mem (l : List ℚ) (a : ℚ) :
    l.foldl max a = a ∨ l.foldl max a ∈ l := by
  induction l generalizing a with
  | nil => exact Or.inl rfl
  | cons y ys ih =>
    rw [List.foldl_cons]
    rcases ih (max a y) with h | h
    · rcases le_total a y with hay | hya
      · right
        rw [h, max_eq_right hay]
        exact List.mem_cons_self _ _
      · left
        rw [h, max_eq_left hya]
    · exact Or.inr (List.mem_cons_of_mem y h)

theorem max_ngram_sim_ge (sim : String → String → ℚ) {ngrams : List String}
    (skill : String) {g : String} (hg : g ∈ ngrams) :
    sim g skill ≤ max_ngram_sim sim ngrams skill := by
  match ngrams, hg with
  | g0 :: gs, hg =>
    show sim g skill ≤ gs.foldl (fun acc g2 => max acc (sim g2 skill)) (sim g0 skill)
    rw [← List.foldl_map (fun g2 => sim g2 skill) max]
    rcases List.mem_cons.mp hg with rfl | h
    · exact le_foldl_max _ _
    · exact mem_le_foldl_max _ _ _ (List.mem_map_of_mem _ h)

theorem max_ngram_sim_attained (sim : String → String → ℚ)
    {ngrams : List String} (skill : String) (hne : ngrams ≠ []) :
    ∃ g ∈ ngrams, max_ngram_sim sim ngrams skill = sim g skill := by
  match ngrams, hne with
  | g0 :: gs, _ =>
    have hfold : max_ngram_sim sim (g0 :: gs) skill =
        (gs.map (fun g2 => sim g2 skill)).foldl max (sim g0 skill) := by
      show gs.foldl (fun acc g2 => max acc (sim g2 skill)) (sim g0 skill) = _
      rw [← List.foldl_map (fun g2 => sim g2 skill) max]
    rcases foldl_max_mem (gs.map (fun g2 => sim g2 skill)) (sim g0 skill) with h | h
    · exact ⟨g0, List.mem_cons_self _ _, hfold.trans h⟩
    · rcases List.mem_map.mp h with ⟨g, hgm, hgv⟩
      exact ⟨g, List.mem_cons_of_mem g0 hgm, hfold.trans hgv.symm⟩

/-- The intermediate `detected_skills.sort(...)` value of
`extract_skills_rag` (before the optional `top_k` truncation). -/
def rag_sorted (skills_list : List String) (sim : String → String → ℚ)
    (text : String) (threshold : ℚ) : List (String × ℚ) :=
  (skills_list.filterMap (fun skill =>
    let score := max_ngram_sim sim (extract_ngrams text) skill
    if threshold ≤ score then some (skill, score) else none)).mergeSort
    (fun a b => decide (b.2 ≤ a.2))

theorem rag_sorted_mem {skills_list : List String} {sim : String → String → ℚ}
    {text : String} {threshold : ℚ} {p : String × ℚ}
    (hp : p ∈ rag_sorted skills_list sim text threshold) :
    p.1 ∈ skills_list ∧ threshold ≤ p.2 ∧
      p.2 = max_ngram_sim sim (extract_ngrams text) p.1 := by
  rw [rag_sorted, List.mem_mergeSort] at hp
  rcases List.mem_filterMap.mp hp with ⟨skill, hsk, hif⟩
  dsimp only at hif
  by_cases hth : threshold ≤ max_ngram_sim sim (extract_ngrams text) skill
  · rw [if_pos hth] at hif
    cases Option.some.inj hif
    exact ⟨hsk, hth, rfl⟩
  · rw [if_neg hth] at hif
    cases hif

theorem rag_sorted_pairwise (skills_list : List String)
    (sim : String → String → ℚ) (text : String) (threshold : ℚ) :
    List.Pairwise (fun a b : String × ℚ => b.2 ≤ a.2)
      (rag_sorted skills_list sim text threshold) := by
  have htrans : ∀ (a b c : String × ℚ),
      decide (b.2 ≤ a.2) = true → decide (c.2 ≤ b.2) = true →
        decide (c.2 ≤ a.2) = true := by
    intro a b c h1 h2
    simp only [decide_eq_true_eq] at h1 h2 ⊢
    exact le_trans h2 h1
  have htotal : ∀ (a b : String × ℚ),
      (decide (b.2 ≤ a.2) || decide (a.2 ≤ b.2)) = true := by
    intro a b
    simp [le_total]
  exact List.Pairwise.imp (fun h => by simpa using h)
    (List.sorted_mergeSort htrans htotal _)

/-- C9: every pair produced by `extract_skills_rag` (scores returned) is
a vocabulary skill whose score is the maximum embedding similarity it
achieved against any n-gram of the text and is ≥ the threshold; the
output is sorted by descending score; and text producing no n-grams —
in particular empty text — yields the empty list rather than an error. -/
theorem C9_extract_skills_rag_spec (skills_list : List String)
    (sim : String → String → ℚ) (text : String) (threshold : ℚ)
    (top_k : Option ℕ) :
    (∀ p ∈ extract_skills_rag skills_list sim text threshold top_k,
        p.1 ∈ skills_list ∧ threshold ≤ p.2 ∧
          p.2 = max_ngram_sim sim (extract_ngrams text) p.1 ∧
          (∀ g ∈ extract_ngrams text, sim g p.1 ≤ p.2) ∧
          (∃ g ∈ extract_ngrams text, p.2 = sim g p.1)) ∧
      List.Pairwise (fun a b : String × ℚ => b.2 ≤ a.2)
        (extract_skills_rag skills_list sim text threshold top_k) ∧
      extract_skills_rag skills_list sim "" threshold top_k = [] := by
  have hempty : ∀ (th : ℚ) (tk : Option ℕ),
      extract_skills_rag skills_list sim "" th tk = [] := by
    intro th tk
    have hng : extract_ngrams "" = [] := by
      simp only [extract_ngrams]
      simp [pyWords]
      intro x hx1 hx2 a ha
      decide
    simp [extract_skills_rag, hng]
  by_cases hng : (extract_ngrams text).isEmpty = true
  · have hz : extract_skills_rag skills_list sim text threshold top_k = [] := by
      simp only [extract_skills_rag]
      rw [if_pos hng]
    rw [hz]
    exact ⟨by simp, by simp, hempty threshold top_k⟩
  · have hne : extract_ngrams text ≠ [] := by
      simpa [List.isEmpty_iff] using hng
    have hsub : extract_skills_rag skills_list sim text threshold top_k ⊆
        rag_sorted skills_list sim text threshold := by
      rcases top_k with _ | k
      · simp only [extract_skills_rag, rag_sorted]
        rw [if_neg hng]
        try exact fun p hp => hp
      · simp only [extract_skills_rag, rag_sorted]
        rw [if_neg hng]
        by_cases hk : k = 0
        · subst hk
          rw [if_neg (by simp)]
          try exact fun p hp => hp
        · rw [if_pos hk]
          exact List.take_subset k _
    have hpair : List.Pairwise (fun a b : String × ℚ => b.2 ≤ a.2)
        (extract_skills_rag skills_list sim text threshold top_k) := by
      have hall : List.Pairwise (fun a b : String × ℚ => b.2 ≤ a.2)
          (rag_sorted skills_list sim text threshold) := rag_sorted_pairwise _ _ _ _
      have hsl : List.Sublist
          (extract_skills_rag skills_list sim text threshold top_k)
          (rag_sorted skills_list sim text threshold) := by
        rcases top_k with _ | k
        · simp only [extract_skills_rag, rag_sorted]
          rw [if_neg hng]
          try exact List.Sublist.refl _
        · simp only [extract_skills_rag, rag_sorted]
          rw [if_neg hng]
          by_cases hk : k = 0
          · subst hk
            rw [if_neg (by simp)]
            try exact List.Sublist.refl _
          · rw [if_pos hk]
            exact List.take_sublist k _
      exact hall.sublist hsl
    refine ⟨?_, hpair, hempty threshold top_k⟩
    intro p hp
    obtain ⟨h1, h2, h3⟩ := rag_sorted_mem (hsub hp)
    refine ⟨h1, h2, h3, ?_, ?_⟩
    · intro g hg
      rw [h3]
      exact max_ngram_sim_ge sim p.1 hg
    · rcases max_ngram_sim_attained sim p.1 hne with ⟨g, hgm, hgv⟩
      exact ⟨g, hgm, h3.trans hgv⟩

/-! ### ATSPipeline (`ats_pipeline.py`)

`PDFExtractor.extract_text` (PyPDF backend: may raise, may return an
empty string) and the NLP backends are the pipeline's external
collaborators, modelled as fields of `AnalyzeDeps`.  The `analyze`
control flow — the only guards it performs — is embedded in full. -/

structure AnalyzeDeps where
  extract_text : String → Except String String
  tfidf : String → List String
  spacy : Option (String → List String)
  cosine : String → String → ℚ

/-- The result dictionary of `ATSPipeline.analyze`: either an error
record (`success: False`) or the full analysis record
(`success: True`). -/
inductive AnalyzeResult where
  | failure (error : String) : AnalyzeResult
  | ok (resume_text_length : ℕ) (resume_keywords : KeywordDict)
      (job_text_length : ℕ) (job_keywords : KeywordDict)
      (similarity_scores : ScoreResult)
      (recommendations : List String) : AnalyzeResult

/-- The `success` flag of the result dictionary. -/
def AnalyzeResult.isSuccess : AnalyzeResult → Bool
  | .failure _ => false
  | .ok _ _ _ _ _ _ => true

/-- `ATSPipeline.analyze` (verbose printing omitted): guard the PDF
extraction, then extract keywords from both texts, score, and attach
recommendations.  There is no guard on `job_description`. -/
def analyze (deps : AnalyzeDeps) (resume_pdf_path : String)
    (job_description : String) : AnalyzeResult :=
  match deps.extract_text resume_pdf_path with
  | .error e => .failure ("Error reading PDF: " ++ e)
  | .ok resume_text =>
    if resume_text = "" then .failure "Failed to extract text from resume PDF"
    else
      let resume_keywords := extract_keywords deps.tfidf deps.spacy resume_text
      let job_keywords := extract_keywords deps.tfidf deps.spacy job_description
      let similarity_results := calculate_weighted_score deps.cosine resume_text
        job_description resume_keywords job_keywords
      let recommendations := generate_recommendations similarity_results
      .ok resume_text.length resume_keywords job_description.length job_keywords
        similarity_results recommendations

/-- C2 (amended): `analyze` returns a failure record only when PDF
extraction raises or yields no text; whenever the resume text is
successfully extracted and non-empty it returns a success record
(`success = true`) for EVERY job-description string, the empty string
included — the empty-job-description guard lives in the UI caller
(`app.py`), not in the pipeline. -/
theorem C2_analyze_succeeds_on_empty_job (deps : AnalyzeDeps)
    (resume_pdf_path job_description resume_text : String)
    (hex : deps.extract_text resume_pdf_path = Except.ok resume_text)
    (hne : resume_text ≠ "") :
    (analyze deps resume_pdf_path job_description).isSuccess = true := by
  simp only [analyze, hex]
  rw [if_neg hne]
  rfl

theorem C2_witness :
    (analyze ⟨fun _ => Except.ok "java", fun _ => [], none, fun _ _ => 0⟩
        "p" "").isSuccess = true :=
  C2_analyze_succeeds_on_empty_job _ "p" "" "java" rfl (by decide)

/-- C2 counterexample: a concrete pipeline run with successfully
extracted resume text and an empty job-description string returns a
record with `success = true` — not the structured failure the claim
demands. -/
theorem C2_counterexample :
    (analyze ⟨fun _ => Except.ok "java resume", fun _ => [], none, fun _ _ => 0⟩
        "resume.pdf" "").isSuccess = true := rfl

end ATS
